import Mathlib

/-!
Shallow embedding of `icacls2h.py` (icacls-to-human converter).

The script reads icacls output, splits it into lines, extracts an optional
target file and an account name from the part before the last colon, extracts
parenthesized ACE tokens with the regex `\(([\w,]+)\)`, classifies each token
against three constant lookup tables, and prints a report.  Every printed
record is modelled as an `OutLine` value; the per-line processing, the main
loop and the CLI dispatch are modelled as pure functions on those values.
-/

/-- Python whitespace characters (ASCII range), as stripped by `str.strip()`. -/
def isPySpace (c : Char) : Bool :=
  c == ' ' || c == '\t' || c == '\n' || c == '\x0b' || c == '\x0c' || c == '\r'

/-- Python `str.strip()`: remove leading and trailing whitespace. -/
def pyStrip (s : String) : String :=
  ⟨((s.data.dropWhile isPySpace).reverse.dropWhile isPySpace).reverse⟩

/-- Python `str.endswith(suf)`. -/
def pyEndswith (s suf : String) : Bool :=
  suf.data.isSuffixOf s.data

/-- Python `str.removesuffix(suf)`: drop the suffix when present, else unchanged. -/
def pyRemovesuffix (s suf : String) : String :=
  if suf.data.isSuffixOf s.data then ⟨s.data.take (s.data.length - suf.data.length)⟩ else s

/-- Splits a character list at the last occurrence of `sep`: returns the
characters before and after that occurrence, or `none` when `sep` is absent.
This is Python `s.rsplit(sep, 1)` restricted to a present single-character
separator. -/
def rsplitLastAux (sep : Char) : List Char → Option (List Char × List Char)
  | [] => none
  | c :: rest =>
    match rsplitLastAux sep rest with
    | some (a, b) => some (c :: a, b)
    | none => if c == sep then some ([], rest) else none

/-- Python `line.rsplit(sep, 1)` for a single-character separator, returning
`none` when the separator does not occur (the script guards each use with a
containment test). -/
def rsplitLast (sep : Char) (s : String) : Option (String × String) :=
  (rsplitLastAux sep s.data).map (fun p => (⟨p.1⟩, ⟨p.2⟩))

/-- Accumulator-based core of Python `str.split(",")`. -/
def splitCommaAux : List Char → List Char → List String
  | [], acc => [⟨acc.reverse⟩]
  | c :: rest, acc =>
    if c == ',' then ⟨acc.reverse⟩ :: splitCommaAux rest []
    else splitCommaAux rest (c :: acc)

/-- Python `s.split(",")`: always returns at least one (possibly empty) piece. -/
def splitComma (s : String) : List String :=
  splitCommaAux s.data []

/-- Python truthiness of an optional string: `None` and `""` are falsy. -/
def pyTruthy : Option String → Bool
  | none => false
  | some s => s != ""

/-- Python `str.splitlines()`: split on `\r\n`, `\r` and `\n` line boundaries,
with no trailing empty line for input ending in a line boundary. -/
def splitlinesAux : List Char → List Char → List String
  | [], [] => []
  | [], acc => [⟨acc.reverse⟩]
  | '\r' :: '\n' :: rest, acc => ⟨acc.reverse⟩ :: splitlinesAux rest []
  | '\r' :: rest, acc => ⟨acc.reverse⟩ :: splitlinesAux rest []
  | '\n' :: rest, acc => ⟨acc.reverse⟩ :: splitlinesAux rest []
  | c :: rest, acc => splitlinesAux rest (c :: acc)

/-- Python `s.splitlines()` (restricted to the ASCII line boundaries the tool
meets in practice). -/
def pySplitlines (s : String) : List String :=
  splitlinesAux s.data []

/-- `DACL_BASIC_RIGHTS` of `icacls2h.py` (lines 68-74): simple rights. -/
def DACL_BASIC_RIGHTS : List (String × String) :=
  [("F", "Full access"),
   ("M", "Modify access"),
   ("RX", "Read and execute access"),
   ("R", "Read-only access"),
   ("W", "Write-only access")]

/-- `DACL_ADVANCED_RIGHTS` of `icacls2h.py` (lines 77-98): specific rights. -/
def DACL_ADVANCED_RIGHTS : List (String × String) :=
  [("D", "Delete"),
   ("RC", "Read control (read permissions)"),
   ("WDAC", "Write DAC (change permissions)"),
   ("WO", "Write owner (take ownership)"),
   ("S", "Synchronize"),
   ("AS", "Access system security"),
   ("MA", "Maximum allowed"),
   ("GR", "Generic read"),
   ("GW", "Generic write"),
   ("GE", "Generic execute"),
   ("GA", "Generic all"),
   ("RD", "Read data/list directory"),
   ("WD", "Write data/add file"),
   ("AD", "Append data/add subdirectory"),
   ("REA", "Read extended attributes"),
   ("WEA", "Write extended attributes"),
   ("X", "Execute/traverse"),
   ("DC", "Delete child"),
   ("RA", "Read attributes"),
   ("WA", "Write attributes")]

/-- Value shape of the inheritance table: short name, long description and the
applies-only-to-containers flag (the tuples of lines 102-129). -/
structure InheritInfo where
  name : String
  desc : String
  dirOnly : Bool
deriving DecidableEq

/-- `DACL_INHERITANCE_RIGHTS` of `icacls2h.py` (lines 101-130). -/
def DACL_INHERITANCE_RIGHTS : List (String × InheritInfo) :=
  [("I", ⟨"Inherit", "ACE inherited from the parent container.", false⟩),
   ("OI", ⟨"Object Inherit", "Objects in this container will inherit this ACE.", true⟩),
   ("CI", ⟨"Container Inherit", "Containers in this parent container will inherit this ACE.", true⟩),
   ("IO", ⟨"Inherit Only", "ACE inherited from the parent container, but does not apply to the object itself.", true⟩),
   ("NP", ⟨"Do Not Propagate Inherit", "Do not propagate inherit. ACE inherited by containers and objects from the parent container, but does not propagate to nested containers.", true⟩)]

/-- Python `dict.get` / `in` on one of the constant tables (insertion order,
distinct keys). -/
def lookupTable {α : Type} (tbl : List (String × α)) (key : String) : Option α :=
  match tbl.find? (fun p => p.1 == key) with
  | some p => some p.2
  | none => none

/-- The key set of a table. -/
def tableKeys {α : Type} (tbl : List (String × α)) : List String :=
  tbl.map Prod.fst

/-- Line 294: `DACL_BASIC_RIGHTS.get(ace_key, DACL_ADVANCED_RIGHTS.get(ace_key))` —
the Basic table is consulted first, then the Advanced table. -/
def basicOrAdvanced (key : String) : Option String :=
  match lookupTable DACL_BASIC_RIGHTS key with
  | some d => some d
  | none => lookupTable DACL_ADVANCED_RIGHTS key

/-- A character matched by `[\w,]` in the pattern `RE_ACE = \(([\w,]+)\)`
(line 133); `\w` is modelled over the ASCII range the tool's inputs use. -/
def isAceChar (c : Char) : Bool :=
  c.isAlphanum || c == '_' || c == ','

/-- Left-to-right scan equivalent to `re.findall` for the pattern
`\(([\w,]+)\)`: the second argument is `none` outside a candidate match and
`some acc` after an opening parenthesis with interior `acc` read so far.  A
candidate closed by `)` with a non-empty interior emits the interior; any
other non-interior character aborts the candidate (a fresh `(` starts a new
one, mirroring the regex scanner's one-character restarts). -/
def findAcesAux : List Char → Option (List Char) → List String
  | [], _ => []
  | c :: rest, none =>
    if c == '(' then findAcesAux rest (some [])
    else findAcesAux rest none
  | c :: rest, some acc =>
    if isAceChar c then findAcesAux rest (some (acc ++ [c]))
    else if c == ')' then
      if acc.isEmpty then findAcesAux rest none
      else (⟨acc⟩ : String) :: findAcesAux rest none
    else if c == '(' then findAcesAux rest (some [])
    else findAcesAux rest none

/-- Line 248: `RE_ACE.findall(line)`. -/
def reAceFindall (s : String) : List String :=
  findAcesAux s.data none

/-- The token list the script actually uses for a line (line 248): the regex
is applied to the whole line, before any colon split. -/
def aceTokensOfLine (line : String) : List String :=
  reAceFindall line

example : reAceFindall "(OI)(CI)(F)" = ["OI", "CI", "F"] := rfl

example : reAceFindall "a(OI)b:(F)" = ["OI", "F"] := rfl

example : reAceFindall "((F)" = ["F"] := rfl

example : reAceFindall "()x" = [] := rfl

example : splitComma "RD,WD,AD" = ["RD", "WD", "AD"] := rfl

example : rsplitLast ':' "a:b:c" = some ("a:b", "c") := rfl

example : pyStrip "  aNT  " = "aNT" := rfl

example : pyRemovesuffix "fNT" "NT" = "f" := rfl

/-- One printed record of the script: each constructor corresponds to one
`print` or `logging` call, carrying exactly the data interpolated there. -/
inductive OutLine where
  /-- `logging.error` of the usage-conflict message (lines 208-211). -/
  | logError (msg : String)
  /-- the startup banner (line 215), carrying the tool version. -/
  | banner (version : String)
  /-- `logging.info("%s Rights:", name)` in `pprint_dacl` (line 137). -/
  | tableTitle (name : String)
  /-- a `logging.debug` record (only emitted at debug level). -/
  | logDebug (msg : String)
  /-- the `ACE Name ... Description` column header (line 139). -/
  | colHeader
  /-- the `-------- -----------` divider (line 140). -/
  | colDivider
  /-- one listing row `ace_id.ljust(20), desc` (line 144). -/
  | tableRow (code desc : String)
  /-- `logging.info("Target: %s\n", target_file)` (line 268). -/
  | targetLine (file : String)
  /-- `logging.info("SID Name: %s", target_account.strip())` (line 271). -/
  | sidLine (account : String)
  /-- `logging.info(f"DACL: {...}")` (line 273), carrying the stripped DACL string. -/
  | daclLine (dacl : String)
  /-- `logging.info("Inheritance Rights:")` (line 279). -/
  | inheritHeader
  /-- `logging.info("Permissions:")` (line 289). -/
  | permHeader
  /-- one inheritance entry `\t+ (ace): name (dir-only: flag)` (line 283). -/
  | inheritEntry (code name : String) (dirOnly : Bool)
  /-- the `-details` long description line (line 285). -/
  | inheritDetail (desc : String)
  /-- one permission entry `\t+ (ace_key): desc` (line 295); `desc` is the
  result of the Basic-then-Advanced lookup, `none` when the code is unknown. -/
  | permEntry (code : String) (desc : Option String)
  /-- an empty `print()` separator (lines 147 and 298). -/
  | blank
deriving DecidableEq

/-- The text of a permission entry record, embedding the f-string of line 295:
Python renders an absent description (`None`) as the literal text `None`. -/
def renderPermEntry (code : String) (desc : Option String) : String :=
  "\t+ (" ++ code ++ "): " ++ (match desc with | some d => d | none => "None")

/-- The ACE loop of lines 276-295: walks the token list in order with the two
lazy-header flags `first_inherit` and `first_perm`.  A token that is a key of
the inheritance table yields one inheritance entry (plus the long description
under `-details`); any other token is split on commas and each piece yields
one permission entry resolved by `basicOrAdvanced`. -/
def renderAces (details : Bool) : List String → Bool → Bool → List OutLine
  | [], _, _ => []
  | ace :: rest, first_inherit, first_perm =>
    match lookupTable DACL_INHERITANCE_RIGHTS ace with
    | some info =>
      (if first_inherit then [OutLine.inheritHeader] else []) ++
      [OutLine.inheritEntry ace info.name info.dirOnly] ++
      (if details then [OutLine.inheritDetail info.desc] else []) ++
      renderAces details rest false first_perm
    | none =>
      (if first_perm then [OutLine.permHeader] else []) ++
      (splitComma ace).map (fun key => OutLine.permEntry key (basicOrAdvanced key)) ++
      renderAces details rest first_inherit false

/-- The identity extraction of lines 249-264, returning the new `target_file`,
the `target_account` and the `current_dacl_string`.  A line without a colon
yields no account and leaves `target_file` unchanged; on the first line a
target containing a space is split at its last space, and the split is kept
exactly when the candidate file part ends with `NT` (line 257, untrimmed). -/
def extractIdentity (target_file : Option String) (is_first_line : Bool) (line : String) :
    Option String × Option String × String :=
  match rsplitLast ':' line with
  | none => (target_file, none, line)
  | some (target, rest) =>
    if is_first_line && target.data.contains ' ' then
      match rsplitLast ' ' target with
      | some (tf, ta) =>
        if ! pyEndswith tf "NT" then (none, some target, rest)
        else (some (pyStrip (pyRemovesuffix tf "NT")), some ("NT " ++ ta), rest)
      | none => (target_file, some target, rest)
    else (target_file, some target, rest)

/-- Lines 267-268: the Target record, printed only when `target_file` is
truthy (Python: not `None` and not empty) and this is the first line. -/
def targetOut (target_file : Option String) (is_first_line : Bool) : List OutLine :=
  match target_file with
  | some f => if (f != "") && is_first_line then [OutLine.targetLine f] else []
  | none => []

/-- Lines 270-271: the SID record, printed only when `target_account` is
truthy, with the account stripped. -/
def sidOut (target_account : Option String) : List OutLine :=
  match target_account with
  | some a => if a != "" then [OutLine.sidLine (pyStrip a)] else []
  | none => []

/-- One iteration of the main loop (lines 247-298): returns the records
printed for `line` and the `target_file` value after the iteration.  Output is
produced only when the token list is non-empty (line 266); the Target and SID
records are guarded by Python truthiness (lines 267 and 270). -/
def processLine (target_file : Option String) (is_first_line details : Bool) (line : String) :
    List OutLine × Option String :=
  let ace_list := reAceFindall line
  let idr := extractIdentity target_file is_first_line line
  let out :=
    if ace_list.length > 0 then
      targetOut idr.1 is_first_line ++
      sidOut idr.2.1 ++
      [OutLine.daclLine (pyStrip idr.2.2)] ++
      renderAces details ace_list true true ++
      [OutLine.blank]
    else []
  (out, idr.1)

/-- The main loop over all lines, threading `target_file`; the first-line flag
is false for every line after the first (lines 300-301). -/
def processLines (details : Bool) : List String → Option String → Bool → List OutLine
  | [], _, _ => []
  | line :: rest, tf, first =>
    (processLine tf first details line).1 ++
    processLines details rest (processLine tf first details line).2 false

/-- The whole report for a list of input lines: `target_file = None` and
`is_first_line = True` initially (lines 245-246). -/
def icaclsMain (details : Bool) (lines : List String) : List OutLine :=
  processLines details lines none true

example : icaclsMain false ["x:(F)(OI)"] =
    [OutLine.sidLine "x", OutLine.daclLine "(F)(OI)", OutLine.permHeader,
     OutLine.permEntry "F" (some "Full access"), OutLine.inheritHeader,
     OutLine.inheritEntry "OI" "Object Inherit" true, OutLine.blank] := rfl

example : icaclsMain false ["(F)"] =
    [OutLine.daclLine "(F)", OutLine.permHeader,
     OutLine.permEntry "F" (some "Full access"), OutLine.blank] := rfl

/-- The choices of the `-list` option (lines 168-173). -/
inductive ListChoice where
  | basic
  | advanced
  | inheritance
  | all
deriving DecidableEq

/-- The parsed command line relevant to behaviour (lines 154-198). -/
structure Argv where
  timestamp : Bool
  debug : Bool
  list : Option ListChoice
  dacl_string : Option String
  no_banner : Bool
  details : Bool

/-- The usage-conflict message of lines 208-211 (two adjacent string literals
in the source). -/
def usageErrorMsg : String :=
  "Cannot list DACLs and process input at the same time. Please specify either the list option or the input string, but not both."

/-- `pprint_dacl` (lines 136-147) on an already-projected code/description
list; the debug records appear only at debug level. -/
def pprint_dacl (debug : Bool) (name : String) (rows : List (String × String)) : List OutLine :=
  [OutLine.tableTitle name] ++
  (if debug then [OutLine.logDebug ("Processing DACL list: " ++ name)] else []) ++
  [OutLine.colHeader, OutLine.colDivider] ++
  rows.map (fun p => OutLine.tableRow p.1 p.2) ++
  (if debug then [OutLine.logDebug ("Finished processing DACL list: " ++ name)] else []) ++
  [OutLine.blank]

/-- The inheritance table as `pprint_dacl` sees it: the tuple values are
unpacked to their first component (lines 141-143). -/
def inheritanceRows : List (String × String) :=
  DACL_INHERITANCE_RIGHTS.map (fun p => (p.1, p.2.name))

/-- The `match argv.list` dispatch of lines 217-227. -/
def listingOutput (debug : Bool) : Option ListChoice → List OutLine
  | some ListChoice.all =>
    pprint_dacl debug "Basic" DACL_BASIC_RIGHTS ++
    pprint_dacl debug "Advanced" DACL_ADVANCED_RIGHTS ++
    pprint_dacl debug "Inheritance" inheritanceRows
  | some ListChoice.advanced => pprint_dacl debug "Advanced" DACL_ADVANCED_RIGHTS
  | some ListChoice.inheritance => pprint_dacl debug "Inheritance" inheritanceRows
  | some ListChoice.basic => pprint_dacl debug "Basic" DACL_BASIC_RIGHTS
  | none => []

/-- Number of newline characters in a string (Python `s.count("\n")`). -/
def countNewlines (s : String) : Nat :=
  (s.data.filter (fun c => c == '\n')).length

/-- The `__main__` driver after argument parsing (lines 207-301): returns the
exit status and the printed records.  `toolVersion` stands for the installed
package version (`None` when the package metadata is absent), `stdinInput` for
what a read of standard input would return.  The usage conflict of line 207
uses Python truthiness, so an empty `DACL_STRING` does not trigger it; listing
mode exits with status 0 (line 230) and a normal run falls off the end of the
script (status 0). -/
def runMain (toolVersion : Option String) (argv : Argv) (stdinInput : String) :
    Nat × List OutLine :=
  if pyTruthy argv.dacl_string && argv.list.isSome then
    (1, [OutLine.logError usageErrorMsg])
  else
    let bannerOut :=
      match toolVersion with
      | some v => if ! argv.no_banner then [OutLine.banner v] else []
      | none => []
    if argv.list.isSome then (0, bannerOut ++ listingOutput argv.debug argv.list)
    else
      let readsStdin := ! pyTruthy argv.dacl_string
      let input := if readsStdin then stdinInput else argv.dacl_string.getD ""
      let dbg1 := if readsStdin && argv.debug then [OutLine.logDebug "Reading input from stdin..."] else []
      let lineCount := if countNewlines input == 0 then 1 else countNewlines input
      let dbg2 := if argv.debug then
        [OutLine.logDebug ("Processing input DACL string with " ++ toString lineCount ++ " lines.")] else []
      (0, bannerOut ++ dbg1 ++ dbg2 ++ icaclsMain argv.details (pySplitlines input))

/-- Records belonging to the Inheritance Rights section of a DACL report. -/
def isInheritLine : OutLine → Bool
  | OutLine.inheritHeader => true
  | OutLine.inheritEntry _ _ _ => true
  | OutLine.inheritDetail _ => true
  | _ => false

/-- Records belonging to the Permissions section of a DACL report. -/
def isPermLine : OutLine → Bool
  | OutLine.permHeader => true
  | OutLine.permEntry _ _ => true
  | _ => false

/-- Scan checking that no Inheritance-section record follows a
Permissions-section record; the flag remembers whether a Permissions record
has been seen. -/
def sectionsOrderedAux : List OutLine → Bool → Bool
  | [], _ => true
  | x :: rest, seenPerm =>
    if isInheritLine x then ! seenPerm && sectionsOrderedAux rest seenPerm
    else if isPermLine x then sectionsOrderedAux rest true
    else sectionsOrderedAux rest seenPerm

/-- Claim C3's section discipline: every Inheritance-section record precedes
every Permissions-section record. -/
def sectionsOrdered (l : List OutLine) : Bool :=
  sectionsOrderedAux l false

/-- The rights code carried by an ACE entry record, `none` for every other
record kind. -/
def entryCode : OutLine → Option String
  | OutLine.inheritEntry code _ _ => some code
  | OutLine.permEntry code _ => some code
  | _ => none

/-- The codes of the ACE entry records of an output, in print order. -/
def entryCodes : List OutLine → List String
  | [] => []
  | x :: rest =>
    match entryCode x with
    | some c => c :: entryCodes rest
    | none => entryCodes rest

/-- The codes the ACE loop renders for a token list: an inheritance token
stands for itself, any other token for its comma-separated pieces. -/
def expandTokens : List String → List String
  | [] => []
  | ace :: rest =>
    (if (lookupTable DACL_INHERITANCE_RIGHTS ace).isSome then [ace] else splitComma ace) ++
    expandTokens rest

/-- Identity extraction for a first line as claim C5 words it: the candidate
file part is trimmed before testing for the `NT` suffix, and the reported file
is that candidate with the trailing `NT` and surrounding whitespace removed. -/
def extractIdentityClaimC5 (line : String) : Option String × Option String × String :=
  match rsplitLast ':' line with
  | none => (none, none, line)
  | some (target, rest) =>
    if target.data.contains ' ' then
      match rsplitLast ' ' target with
      | some (tf, ta) =>
        if pyEndswith (pyStrip tf) "NT" then
          (some (pyStrip (pyRemovesuffix (pyStrip tf) "NT")), some ("NT " ++ ta), rest)
        else (none, some target, rest)
      | none => (none, some target, rest)
    else (none, some target, rest)

/-- Identity extraction for a first line as the amended claim C5 words it: the
suffix test reads the raw, untrimmed candidate file part, and on success the
file is that candidate with the trailing `NT` removed and then stripped. -/
def extractIdentityAmendedC5 (line : String) : Option String × Option String × String :=
  match rsplitLast ':' line with
  | none => (none, none, line)
  | some (target, rest) =>
    if target.data.contains ' ' then
      match rsplitLast ' ' target with
      | some (tf, ta) =>
        if pyEndswith tf "NT" then
          (some (pyStrip (pyRemovesuffix tf "NT")), some ("NT " ++ ta), rest)
        else (none, some target, rest)
      | none => (none, some target, rest)
    else (none, some target, rest)

/-! ## Helper lemmas -/

theorem splitCommaAux_length_pos (l acc : List Char) : 0 < (splitCommaAux l acc).length := by
  induction l generalizing acc with
  | nil => simp [splitCommaAux]
  | cons c rest ih =>
    rw [splitCommaAux]
    split
    · simp
    · exact ih _

theorem splitComma_length_pos (s : String) : 0 < (splitComma s).length :=
  splitCommaAux_length_pos s.data []

theorem expandTokens_length_le (aces : List String) :
    aces.length ≤ (expandTokens aces).length := by
  induction aces with
  | nil => simp [expandTokens]
  | cons ace rest ih =>
    rw [expandTokens]
    simp only [List.length_append, List.length_cons]
    split
    · simp only [List.length_singleton]
      omega
    · have := splitComma_length_pos ace
      omega

theorem entryCodes_append (l₁ l₂ : List OutLine) :
    entryCodes (l₁ ++ l₂) = entryCodes l₁ ++ entryCodes l₂ := by
  induction l₁ with
  | nil => rfl
  | cons x rest ih =>
    rw [List.cons_append, entryCodes, entryCodes]
    cases entryCode x <;> simp [ih]

theorem entryCodes_permEntries (pieces : List String) :
    entryCodes (pieces.map (fun key => OutLine.permEntry key (basicOrAdvanced key))) = pieces := by
  induction pieces with
  | nil => rfl
  | cons p ps ih => simp [entryCodes, entryCode, ih]

theorem renderAces_entryCodes (d : Bool) (aces : List String) (fi fp : Bool) :
    entryCodes (renderAces d aces fi fp) = expandTokens aces := by
  induction aces generalizing fi fp with
  | nil => rfl
  | cons ace rest ih =>
    cases h : lookupTable DACL_INHERITANCE_RIGHTS ace with
    | some info =>
      cases fi <;> cases d <;>
        simp [renderAces, h, expandTokens, entryCodes_append, entryCodes, entryCode, ih]
    | none =>
      cases fp <;>
        simp [renderAces, h, expandTokens, entryCodes_append, entryCodes, entryCode,
          entryCodes_permEntries, ih]

theorem mem_renderAces_kind (d : Bool) (aces : List String) (fi fp : Bool) (x : OutLine)
    (hx : x ∈ renderAces d aces fi fp) : isInheritLine x = true ∨ isPermLine x = true := by
  induction aces generalizing fi fp with
  | nil => simp [renderAces] at hx
  | cons ace rest ih =>
    cases h : lookupTable DACL_INHERITANCE_RIGHTS ace with
    | some info =>
      rw [renderAces, h] at hx
      rcases List.mem_append.mp hx with h1 | h2
      · rcases List.mem_append.mp h1 with h3 | h4
        · rcases List.mem_append.mp h3 with h5 | h6
          · rcases List.mem_ite_nil_right.mp h5 with ⟨_, h7⟩
            rcases List.mem_singleton.mp h7 with rfl
            exact Or.inl rfl
          · rcases List.mem_singleton.mp h6 with rfl
            exact Or.inl rfl
        · rcases List.mem_ite_nil_right.mp h4 with ⟨_, h7⟩
          rcases List.mem_singleton.mp h7 with rfl
          exact Or.inl rfl
      · exact ih _ _ h2
    | none =>
      rw [renderAces, h] at hx
      rcases List.mem_append.mp hx with h1 | h2
      · rcases List.mem_append.mp h1 with h3 | h4
        · rcases List.mem_ite_nil_right.mp h3 with ⟨_, h7⟩
          rcases List.mem_singleton.mp h7 with rfl
          exact Or.inr rfl
        · rcases List.mem_map.mp h4 with ⟨key, _, rfl⟩
          exact Or.inr rfl
      · exact ih _ _ h2

theorem targetLine_not_mem_renderAces (d : Bool) (aces : List String) (fi fp : Bool)
    (f : String) : OutLine.targetLine f ∉ renderAces d aces fi fp := by
  intro hx
  rcases mem_renderAces_kind d aces fi fp _ hx with h | h <;>
    simp [isInheritLine, isPermLine] at h

theorem sidLine_not_mem_renderAces (d : Bool) (aces : List String) (fi fp : Bool)
    (a : String) : OutLine.sidLine a ∉ renderAces d aces fi fp := by
  intro hx
  rcases mem_renderAces_kind d aces fi fp _ hx with h | h <;>
    simp [isInheritLine, isPermLine] at h

theorem renderAces_inheritHeader_not_mem (d : Bool) (aces : List String) (fp : Bool) :
    OutLine.inheritHeader ∉ renderAces d aces false fp := by
  induction aces generalizing fp with
  | nil => simp [renderAces]
  | cons ace rest ih =>
    cases h : lookupTable DACL_INHERITANCE_RIGHTS ace with
    | some info => cases d <;> simp [renderAces, h, ih]
    | none => cases fp <;> simp [renderAces, h, ih]

theorem renderAces_permHeader_not_mem (d : Bool) (aces : List String) (fi : Bool) :
    OutLine.permHeader ∉ renderAces d aces fi false := by
  induction aces generalizing fi with
  | nil => simp [renderAces]
  | cons ace rest ih =>
    cases h : lookupTable DACL_INHERITANCE_RIGHTS ace with
    | some info => cases d <;> cases fi <;> simp [renderAces, h, ih]
    | none => simp [renderAces, h, ih]

theorem renderAces_count_inheritHeader (d : Bool) (aces : List String) (fi fp : Bool) :
    (renderAces d aces fi fp).count OutLine.inheritHeader ≤ 1 := by
  induction aces generalizing fi fp with
  | nil => simp [renderAces]
  | cons ace rest ih =>
    cases h : lookupTable DACL_INHERITANCE_RIGHTS ace with
    | some info =>
      have hz : (renderAces d rest false fp).count OutLine.inheritHeader = 0 :=
        List.count_eq_zero.mpr (renderAces_inheritHeader_not_mem d rest fp)
      cases fi <;> cases d <;>
        simp [renderAces, h, List.count_append, List.count_cons, hz]
    | none =>
      have hm : OutLine.inheritHeader ∉
          (splitComma ace).map (fun key => OutLine.permEntry key (basicOrAdvanced key)) := by
        simp
      have hz2 := List.count_eq_zero.mpr hm
      cases fp <;>
        simp [renderAces, h, List.count_append, List.count_cons, hz2, ih]

theorem renderAces_count_permHeader (d : Bool) (aces : List String) (fi fp : Bool) :
    (renderAces d aces fi fp).count OutLine.permHeader ≤ 1 := by
  induction aces generalizing fi fp with
  | nil => simp [renderAces]
  | cons ace rest ih =>
    cases h : lookupTable DACL_INHERITANCE_RIGHTS ace with
    | some info =>
      cases fi <;> cases d <;>
        simp [renderAces, h, List.count_append, List.count_cons, ih]
    | none =>
      have hz : (renderAces d rest fi false).count OutLine.permHeader = 0 :=
        List.count_eq_zero.mpr (renderAces_permHeader_not_mem d rest fi)
      have hm : OutLine.permHeader ∉
          (splitComma ace).map (fun key => OutLine.permEntry key (basicOrAdvanced key)) := by
        simp
      have hz2 := List.count_eq_zero.mpr hm
      cases fp <;>
        simp [renderAces, h, List.count_append, List.count_cons, hz, hz2]

theorem permEntry_mem_renderAces (d : Bool) {aces : List String} {ace key : String}
    (ha : ace ∈ aces) (hni : lookupTable DACL_INHERITANCE_RIGHTS ace = none)
    (hk : key ∈ splitComma ace) :
    ∀ fi fp, OutLine.permEntry key (basicOrAdvanced key) ∈ renderAces d aces fi fp := by
  induction aces with
  | nil => cases ha
  | cons a rest ih =>
    intro fi fp
    rcases List.mem_cons.mp ha with rfl | ha'
    · simp only [renderAces, hni]
      refine List.mem_append.mpr (Or.inl (List.mem_append.mpr (Or.inr ?_)))
      exact List.mem_map.mpr ⟨key, hk, rfl⟩
    · cases hl : lookupTable DACL_INHERITANCE_RIGHTS a with
      | some info =>
        simp only [renderAces, hl]
        exact List.mem_append.mpr (Or.inr (ih ha' _ _))
      | none =>
        simp only [renderAces, hl]
        exact List.mem_append.mpr (Or.inr (ih ha' _ _))

theorem targetOut_cases (tf : Option String) (first : Bool) :
    targetOut tf first = [] ∨ ∃ f, targetOut tf first = [OutLine.targetLine f] := by
  rcases tf with _ | f
  · exact Or.inl rfl
  · rw [targetOut]
    split
    · exact Or.inr ⟨f, rfl⟩
    · exact Or.inl rfl

theorem sidOut_cases (ta : Option String) :
    sidOut ta = [] ∨ ∃ a, sidOut ta = [OutLine.sidLine a] := by
  rcases ta with _ | a
  · exact Or.inl rfl
  · rw [sidOut]
    split
    · exact Or.inr ⟨pyStrip a, rfl⟩
    · exact Or.inl rfl

theorem targetOut_not_first (tf : Option String) : targetOut tf false = [] := by
  rcases tf with _ | f
  · rfl
  · simp [targetOut]

theorem targetOut_none (first : Bool) : targetOut none first = [] := rfl

theorem contains_eq_false_rsplitLastAux (sep : Char) (l : List Char)
    (h : l.contains sep = false) : rsplitLastAux sep l = none := by
  induction l with
  | nil => rfl
  | cons c rest ih =>
    simp only [List.contains_cons, Bool.or_eq_false_iff] at h
    have h2 : (c == sep) = false :=
      beq_eq_false_iff_ne.mpr (fun hc => (beq_eq_false_iff_ne.mp h.1) hc.symm)
    rw [rsplitLastAux, ih h.2, h2]
    rfl

theorem rsplitLast_eq_none (sep : Char) (s : String) (h : s.data.contains sep = false) :
    rsplitLast sep s = none := by
  rw [rsplitLast, contains_eq_false_rsplitLastAux sep s.data h]
  rfl

theorem extractIdentity_no_colon (tf : Option String) (first : Bool) (line : String)
    (h : line.data.contains ':' = false) :
    extractIdentity tf first line = (tf, none, line) := by
  unfold extractIdentity
  rw [rsplitLast_eq_none ':' line h]

theorem extractIdentity_not_first (tf : Option String) (line : String) :
    (extractIdentity tf false line).1 = tf := by
  unfold extractIdentity
  cases h : rsplitLast ':' line with
  | none => rfl
  | some p =>
    obtain ⟨t, r⟩ := p
    simp

theorem processLine_out_pos (tf : Option String) (first d : Bool) (line : String)
    (h : reAceFindall line ≠ []) :
    (processLine tf first d line).1 =
      targetOut (extractIdentity tf first line).1 first ++
      sidOut (extractIdentity tf first line).2.1 ++
      [OutLine.daclLine (pyStrip (extractIdentity tf first line).2.2)] ++
      renderAces d (reAceFindall line) true true ++
      [OutLine.blank] := by
  have hl : 0 < (reAceFindall line).length := List.length_pos.mpr h
  simp only [processLine]
  rw [if_pos hl]

theorem processLine_out_nil (tf : Option String) (first d : Bool) (line : String)
    (h : reAceFindall line = []) :
    (processLine tf first d line).1 = [] := by
  simp [processLine, h]

theorem processLine_snd (tf : Option String) (first d : Bool) (line : String) :
    (processLine tf first d line).2 = (extractIdentity tf first line).1 := rfl

theorem lookupInherit_comma_none (ace : String) (h : ',' ∈ ace.data) :
    lookupTable DACL_INHERITANCE_RIGHTS ace = none := by
  have h1 : (("I" : String) == ace) = false :=
    beq_eq_false_iff_ne.mpr (by rintro rfl; exact absurd h (by decide))
  have h2 : (("OI" : String) == ace) = false :=
    beq_eq_false_iff_ne.mpr (by rintro rfl; exact absurd h (by decide))
  have h3 : (("CI" : String) == ace) = false :=
    beq_eq_false_iff_ne.mpr (by rintro rfl; exact absurd h (by decide))
  have h4 : (("IO" : String) == ace) = false :=
    beq_eq_false_iff_ne.mpr (by rintro rfl; exact absurd h (by decide))
  have h5 : (("NP" : String) == ace) = false :=
    beq_eq_false_iff_ne.mpr (by rintro rfl; exact absurd h (by decide))
  simp [lookupTable, DACL_INHERITANCE_RIGHTS, List.find?, h1, h2, h3, h4, h5]

theorem findAcesAux_sep (b : List Char) (a : List Char) (st : Option (List Char)) :
    findAcesAux (a ++ ':' :: b) st = findAcesAux a st ++ findAcesAux b none := by
  induction a generalizing st with
  | nil =>
    have h1 : isAceChar ':' = false := by decide
    have h2 : ((':' : Char) == ')') = false := by decide
    have h3 : ((':' : Char) == '(') = false := by decide
    cases st with
    | none => simp [findAcesAux, h3]
    | some acc => simp [findAcesAux, h1, h2, h3]
  | cons c a' ih =>
    cases st with
    | none =>
      rw [List.cons_append]
      by_cases hc : (c == '(') = true
      · simp [findAcesAux, hc, ih]
      · simp [findAcesAux, hc, ih]
    | some acc =>
      rw [List.cons_append]
      by_cases h1 : isAceChar c = true
      · simp [findAcesAux, h1, ih]
      · by_cases h2 : (c == ')') = true
        · by_cases h3 : acc.isEmpty = true
          · simp [findAcesAux, h1, h2, h3, ih]
          · simp [findAcesAux, h1, h2, h3, ih]
        · by_cases h3 : (c == '(') = true
          · simp [findAcesAux, h1, h2, h3, ih]
          · simp [findAcesAux, h1, h2, h3, ih]

theorem rsplitLastAux_append (sep : Char) (a b : List Char) (hb : b.contains sep = false) :
    rsplitLastAux sep (a ++ sep :: b) = some (a, b) := by
  induction a with
  | nil =>
    rw [List.nil_append, rsplitLastAux, contains_eq_false_rsplitLastAux sep b hb]
    simp
  | cons c a' ih =>
    rw [List.cons_append, rsplitLastAux, ih]

theorem not_mem_targetOut (tf : Option String) (first : Bool) (x : OutLine)
    (h : ∀ f, x ≠ OutLine.targetLine f) : x ∉ targetOut tf first := by
  intro hx
  rcases targetOut_cases tf first with he | ⟨f, he⟩ <;> rw [he] at hx
  · exact List.not_mem_nil _ hx
  · exact h f (List.mem_singleton.mp hx)

theorem not_mem_sidOut (ta : Option String) (x : OutLine)
    (h : ∀ a, x ≠ OutLine.sidLine a) : x ∉ sidOut ta := by
  intro hx
  rcases sidOut_cases ta with he | ⟨a, he⟩ <;> rw [he] at hx
  · exact List.not_mem_nil _ hx
  · exact h a (List.mem_singleton.mp hx)

theorem targetLine_mem_processLine_targetOut (tf : Option String) (first d : Bool)
    (line : String) (f : String)
    (hx : OutLine.targetLine f ∈ (processLine tf first d line).1) :
    OutLine.targetLine f ∈ targetOut (extractIdentity tf first line).1 first := by
  by_cases hace : reAceFindall line = []
  · rw [processLine_out_nil _ _ _ _ hace] at hx
    exact absurd hx (List.not_mem_nil _)
  · rw [processLine_out_pos _ _ _ _ hace] at hx
    simp only [List.mem_append] at hx
    rcases hx with (((h1 | h2) | h3) | h4) | h5
    · exact h1
    · exact absurd h2 (not_mem_sidOut _ _ (fun a => by simp))
    · simp at h3
    · exact absurd h4 (targetLine_not_mem_renderAces _ _ _ _ _)
    · simp at h5

theorem sidLine_not_mem_processLine_no_account (tf : Option String) (first d : Bool)
    (line : String) (a : String)
    (hacct : (extractIdentity tf first line).2.1 = none) :
    OutLine.sidLine a ∉ (processLine tf first d line).1 := by
  intro hx
  by_cases hace : reAceFindall line = []
  · rw [processLine_out_nil _ _ _ _ hace] at hx
    exact List.not_mem_nil _ hx
  · rw [processLine_out_pos _ _ _ _ hace] at hx
    simp only [List.mem_append] at hx
    rcases hx with (((h1 | h2) | h3) | h4) | h5
    · exact not_mem_targetOut _ _ _ (fun f => by simp) h1
    · rw [hacct] at h2
      exact List.not_mem_nil _ h2
    · simp at h3
    · exact sidLine_not_mem_renderAces _ _ _ _ _ h4
    · simp at h5

theorem processLines_no_targetLine (d : Bool) (lines : List String) (tf : Option String)
    (f : String) : OutLine.targetLine f ∉ processLines d lines tf false := by
  induction lines generalizing tf with
  | nil => simp [processLines]
  | cons line rest ih =>
    rw [processLines]
    intro hx
    rcases List.mem_append.mp hx with h1 | h2
    · have h := targetLine_mem_processLine_targetOut _ _ _ _ _ h1
      rw [targetOut_not_first] at h
      exact List.not_mem_nil _ h
    · exact ih _ h2

theorem entryCodes_targetOut (tf : Option String) (first : Bool) :
    entryCodes (targetOut tf first) = [] := by
  rcases targetOut_cases tf first with he | ⟨f, he⟩ <;> rw [he] <;> rfl

theorem entryCodes_sidOut (ta : Option String) : entryCodes (sidOut ta) = [] := by
  rcases sidOut_cases ta with he | ⟨a, he⟩ <;> rw [he] <;> rfl

theorem processLine_entryCodes (tf : Option String) (first d : Bool) (line : String) :
    entryCodes (processLine tf first d line).1 = expandTokens (reAceFindall line) := by
  by_cases hace : reAceFindall line = []
  · rw [processLine_out_nil _ _ _ _ hace, hace]
    rfl
  · rw [processLine_out_pos _ _ _ _ hace]
    simp [entryCodes_append, entryCodes_targetOut, entryCodes_sidOut, entryCodes, entryCode,
      renderAces_entryCodes]

theorem processLine_count_header_le_one (tf : Option String) (first d : Bool) (line : String)
    (x : OutLine) (hxt : ∀ f, x ≠ OutLine.targetLine f) (hxs : ∀ a, x ≠ OutLine.sidLine a)
    (hxd : ∀ s, x ≠ OutLine.daclLine s) (hxb : x ≠ OutLine.blank)
    (hr : (renderAces d (reAceFindall line) true true).count x ≤ 1) :
    (processLine tf first d line).1.count x ≤ 1 := by
  by_cases hace : reAceFindall line = []
  · rw [processLine_out_nil _ _ _ _ hace]
    simp
  · rw [processLine_out_pos _ _ _ _ hace]
    rw [List.count_append, List.count_append, List.count_append, List.count_append]
    have h1 : (targetOut (extractIdentity tf first line).1 first).count x = 0 :=
      List.count_eq_zero.mpr (not_mem_targetOut _ _ _ hxt)
    have h2 : (sidOut (extractIdentity tf first line).2.1).count x = 0 :=
      List.count_eq_zero.mpr (not_mem_sidOut _ _ hxs)
    have h3 : ([OutLine.daclLine (pyStrip (extractIdentity tf first line).2.2)]).count x = 0 :=
      List.count_eq_zero.mpr (by intro hm; exact hxd _ (List.mem_singleton.mp hm))
    have h4 : ([OutLine.blank]).count x = 0 :=
      List.count_eq_zero.mpr (by intro hm; exact hxb (List.mem_singleton.mp hm))
    omega

/-! ## Claims -/

/-- C1 (counterexample): for the unknown code `QQ` the script prints the
entry `\t+ (QQ): None` — the placeholder is Python's `None`, not the text
`Unknown` the claim requires. -/
theorem C1_counterexample :
    icaclsMain false ["x:(QQ)"] =
      [OutLine.sidLine "x", OutLine.daclLine "(QQ)", OutLine.permHeader,
       OutLine.permEntry "QQ" none, OutLine.blank] ∧
    renderPermEntry "QQ" none = "\t+ (QQ): None" ∧
    pyEndswith (renderPermEntry "QQ" none) "Unknown" = false := by
  refine ⟨by decide, by decide, by decide⟩

/-- C1 (amended): for every ACE token that is not a key of the Inheritance
table and every comma-separated piece of it found in neither the Basic nor
the Advanced table, the renderer still prints one entry for the literal
piece, with the placeholder text `None` (Python's rendering of the absent
description) rather than `Unknown`. -/
theorem C1_unknown_piece (d first : Bool) (tf : Option String) (line : String)
    (ace key : String) (ha : ace ∈ reAceFindall line)
    (hni : lookupTable DACL_INHERITANCE_RIGHTS ace = none)
    (hk : key ∈ splitComma ace)
    (hb : lookupTable DACL_BASIC_RIGHTS key = none)
    (hadv : lookupTable DACL_ADVANCED_RIGHTS key = none) :
    OutLine.permEntry key none ∈ (processLine tf first d line).1 ∧
    renderPermEntry key none = "\t+ (" ++ key ++ "): None" := by
  have hba : basicOrAdvanced key = none := by simp [basicOrAdvanced, hb, hadv]
  constructor
  · have hmem := permEntry_mem_renderAces d ha hni hk true true
    rw [hba] at hmem
    rw [processLine_out_pos _ _ _ _ (List.ne_nil_of_mem ha)]
    simp only [List.mem_append]
    exact Or.inl (Or.inr hmem)
  · show ("\t+ (" ++ key ++ "): ") ++ "None" = "\t+ (" ++ key ++ "): None"
    rw [String.append_assoc]
    congr 1

/-- C1 (witness): the theorem applied to the line `x:(QQ)` and its unknown
code `QQ`. -/
theorem C1_witness :
    OutLine.permEntry "QQ" none ∈ (processLine none true false "x:(QQ)").1 ∧
    renderPermEntry "QQ" none = "\t+ (" ++ "QQ" ++ "): None" :=
  C1_unknown_piece false true none "x:(QQ)" "QQ" "QQ" (by decide) (by decide)
    (by decide) (by decide) (by decide)

/-- C2 (counterexample): the colon-less line `(F)` still produces output —
a DACL record, the Permissions header, an entry and a separator — so a colon
is not required for output. -/
theorem C2_counterexample :
    ("(F)".data.contains ':') = false ∧
    icaclsMain false ["(F)"] =
      [OutLine.daclLine "(F)", OutLine.permHeader,
       OutLine.permEntry "F" (some "Full access"), OutLine.blank] := by
  refine ⟨by decide, by decide⟩

/-- C2 (amended): a line without a colon yields no identity records (no SID
record ever, and no Target record in any state the program reaches), and its
output is empty exactly when the line also has no parenthesized ACE token; a
colon is not required for the DACL, header and entry records. -/
theorem C2_no_colon (d first : Bool) (tf : Option String) (line : String)
    (h : line.data.contains ':' = false) :
    (∀ a, OutLine.sidLine a ∉ (processLine tf first d line).1) ∧
    ((first = true → tf = none) →
      ∀ f, OutLine.targetLine f ∉ (processLine tf first d line).1) ∧
    (reAceFindall line = [] → (processLine tf first d line).1 = []) ∧
    (reAceFindall line ≠ [] → (processLine tf first d line).1 ≠ []) := by
  have hid := extractIdentity_no_colon tf first line h
  refine ⟨?_, ?_, ?_, ?_⟩
  · intro a
    apply sidLine_not_mem_processLine_no_account
    rw [hid]
  · intro htf f hx
    have hmem := targetLine_mem_processLine_targetOut _ _ _ _ _ hx
    rw [hid] at hmem
    cases first with
    | false =>
      rw [targetOut_not_first] at hmem
      exact List.not_mem_nil _ hmem
    | true =>
      rw [htf rfl] at hmem
      exact List.not_mem_nil _ hmem
  · exact processLine_out_nil tf first d line
  · intro hace
    rw [processLine_out_pos _ _ _ _ hace]
    simp

/-- C2 (witness): the theorem applied to the colon-less line `(F)` in the
initial state. -/
theorem C2_witness :
    OutLine.sidLine "x" ∉ (processLine none true false "(F)").1 ∧
    OutLine.targetLine "x" ∉ (processLine none true false "(F)").1 ∧
    (processLine none true false "(F)").1 ≠ [] := by
  have h := C2_no_colon false true none "(F)" (by decide)
  exact ⟨h.1 "x", h.2.1 (fun _ => rfl) "x", h.2.2.2 (by decide)⟩

/-- C3 (counterexample): for the line `x:(F)(OI)` the permission entry for
`F` is printed before the inheritance entry for `OI`, so the Inheritance
Rights section is not printed before the Permissions section. -/
theorem C3_counterexample :
    sectionsOrdered (icaclsMain false ["x:(F)(OI)"]) = false ∧
    icaclsMain false ["x:(F)(OI)"] =
      [OutLine.sidLine "x", OutLine.daclLine "(F)(OI)", OutLine.permHeader,
       OutLine.permEntry "F" (some "Full access"), OutLine.inheritHeader,
       OutLine.inheritEntry "OI" "Object Inherit" true, OutLine.blank] := by
  refine ⟨by decide, by decide⟩

/-- C3 (amended): each section header is printed at most once per line and
the rendered entries follow the original token order exactly (an inheritance
token yields itself, any other token its comma-separated pieces) — but the
entries are not regrouped into an Inheritance section preceding a Permissions
section: they interleave in token order. -/
theorem C3_sections (d first : Bool) (tf : Option String) (line : String) :
    (processLine tf first d line).1.count OutLine.inheritHeader ≤ 1 ∧
    (processLine tf first d line).1.count OutLine.permHeader ≤ 1 ∧
    entryCodes (processLine tf first d line).1 = expandTokens (reAceFindall line) := by
  refine ⟨?_, ?_, processLine_entryCodes tf first d line⟩
  · exact processLine_count_header_le_one tf first d line OutLine.inheritHeader
      (fun f => by simp) (fun a => by simp) (fun s => by simp) (by simp)
      (renderAces_count_inheritHeader d (reAceFindall line) true true)
  · exact processLine_count_header_le_one tf first d line OutLine.permHeader
      (fun f => by simp) (fun a => by simp) (fun s => by simp) (by simp)
      (renderAces_count_permHeader d (reAceFindall line) true true)

/-- C4 (counterexample): for the line `x:(RD,WD,AD)` the tokenizer extracts
one token but three entry lines are rendered, so the number of rendered
entries does not equal the number of tokens. -/
theorem C4_counterexample :
    (entryCodes (icaclsMain false ["x:(RD,WD,AD)"])).length ≠
      (aceTokensOfLine "x:(RD,WD,AD)").length := by
  decide

/-- C4 (amended): the number of rendered entry lines equals the number of
codes in the token expansion (one per inheritance token, one per
comma-separated piece of any other token); it is at least the number of
tokens, so no token is dropped. -/
theorem C4_entry_count (d first : Bool) (tf : Option String) (line : String) :
    (entryCodes (processLine tf first d line).1).length =
      (expandTokens (reAceFindall line)).length ∧
    (aceTokensOfLine line).length ≤ (entryCodes (processLine tf first d line).1).length := by
  constructor
  · rw [processLine_entryCodes]
  · rw [processLine_entryCodes]
    exact expandTokens_length_le (reAceFindall line)

/-- C5 (counterexample): on the first line `abcNT  SYSTEM:(F)` (two spaces)
the candidate file part is `abcNT ` whose trimmed form ends in `NT`, yet the
script discards the split — it tests the untrimmed candidate — so the result
differs from the claim's trimmed-suffix rule. -/
theorem C5_counterexample :
    extractIdentity none true "abcNT  SYSTEM:(F)" ≠
      extractIdentityClaimC5 "abcNT  SYSTEM:(F)" ∧
    extractIdentity none true "abcNT  SYSTEM:(F)" =
      (none, some "abcNT  SYSTEM", "(F)") ∧
    extractIdentityClaimC5 "abcNT  SYSTEM:(F)" =
      (some "abc", some "NT SYSTEM", "(F)") := by
  refine ⟨by decide, by decide, by decide⟩

/-- C5 (amended): on the first processed line the extractor behaves exactly
like the rule with the suffix test applied to the raw, untrimmed candidate
file part: the split on the last space is accepted iff that raw candidate
ends with `NT`, in which case the account is `NT ` plus the candidate account
and the file is the candidate with the `NT` suffix removed and then stripped;
otherwise the whole untrimmed target is the account and no file is set. -/
theorem C5_first_line_identity (line : String) :
    extractIdentity none true line = extractIdentityAmendedC5 line := by
  unfold extractIdentity extractIdentityAmendedC5
  cases h : rsplitLast ':' line with
  | none => rfl
  | some p =>
    obtain ⟨target, rest⟩ := p
    cases hsp : target.data.contains ' ' with
    | false =>
      have hsp2 : ¬ ' ' ∈ target.data := by simpa using hsp
      simp [hsp2]
    | true =>
      cases hsp2 : rsplitLast ' ' target with
      | none => simp [hsp, hsp2]
      | some q =>
        obtain ⟨tf, ta⟩ := q
        cases he : pyEndswith tf "NT" with
        | false => simp [hsp, hsp2, he]
        | true => simp [hsp, hsp2, he]

/-- C6 (counterexample): for the line `a(OI)b:(F)` the script's tokens are
`["OI", "F"]`, not the `["F"]` of the rights part after the last colon, and
the pre-colon group `OI` is rendered as an inheritance entry. -/
theorem C6_counterexample :
    rsplitLast ':' "a(OI)b:(F)" = some ("a(OI)b", "(F)") ∧
    aceTokensOfLine "a(OI)b:(F)" = ["OI", "F"] ∧
    reAceFindall "(F)" = ["F"] ∧
    aceTokensOfLine "a(OI)b:(F)" ≠ reAceFindall "(F)" ∧
    OutLine.inheritEntry "OI" "Object Inherit" true ∈ icaclsMain false ["a(OI)b:(F)"] := by
  refine ⟨by decide, by decide, by decide, by decide, by decide⟩

/-- C6 (amended): the ACE tokens of a line are the parenthesized groups of
the whole line: when the line splits at its last colon into a target and a
rights part, the token list is the groups found in the target followed by the
groups found in the rights part — pre-colon groups are reported too. -/
theorem C6_tokens_whole_line (t r : String) (hr : r.data.contains ':' = false) :
    rsplitLast ':' (t ++ ":" ++ r) = some (t, r) ∧
    aceTokensOfLine (t ++ ":" ++ r) = reAceFindall t ++ reAceFindall r := by
  have hdata : (t ++ ":" ++ r).data = t.data ++ ':' :: r.data := by
    rw [String.data_append, String.data_append]
    rw [show (":" : String).data = [':'] from rfl]
    rw [List.append_assoc]
    rfl
  constructor
  · rw [rsplitLast, hdata, rsplitLastAux_append ':' t.data r.data hr]
    rfl
  · show findAcesAux ((t ++ ":" ++ r).data) none = _
    rw [hdata, findAcesAux_sep]
    rfl

/-- C6 (witness): the theorem applied to the target `a(OI)b` and rights part
`(F)`. -/
theorem C6_witness :
    rsplitLast ':' ("a(OI)b" ++ ":" ++ "(F)") = some ("a(OI)b", "(F)") ∧
    aceTokensOfLine ("a(OI)b" ++ ":" ++ "(F)") = reAceFindall "a(OI)b" ++ reAceFindall "(F)" :=
  C6_tokens_whole_line "a(OI)b" "(F)" (by decide)

/-- C7 (counterexample): the usage check uses Python truthiness, so supplying
the empty string as `DACL_STRING` together with `-list all` does not conflict:
the program prints the tables and exits with status 0, against the claim's
exit 1 with no table. -/
theorem C7_counterexample :
    (runMain none ⟨false, false, some ListChoice.all, some "", false, false⟩ "").1 = 0 ∧
    OutLine.tableRow "F" "Full access" ∈
      (runMain none ⟨false, false, some ListChoice.all, some "", false, false⟩ "").2 := by
  refine ⟨by decide, by decide⟩

/-- C7 (amended): if a non-empty (truthy) `DACL_STRING` and `-list` are both
supplied the program logs the usage error and exits with status 1 printing
nothing else; if `-list` is supplied without a `DACL_STRING` the requested
tables are printed and the exit status is 0. -/
theorem C7_usage_conflict (tv : Option String) (stdin : String) (a1 a2 : Argv)
    (h1 : pyTruthy a1.dacl_string = true) (h2 : a1.list.isSome = true)
    (h3 : a2.dacl_string = none) (c : ListChoice) (h4 : a2.list = some c) :
    runMain tv a1 stdin = (1, [OutLine.logError usageErrorMsg]) ∧
    (runMain tv a2 stdin).1 = 0 ∧
    (∃ pre, (runMain tv a2 stdin).2 = pre ++ listingOutput a2.debug (some c)) := by
  have hrun : runMain tv a2 stdin =
      (0, (match tv with
           | some v => if ! a2.no_banner then [OutLine.banner v] else []
           | none => []) ++ listingOutput a2.debug (some c)) := by
    unfold runMain
    rw [if_neg (by rw [h3]; simp [pyTruthy])]
    simp only []
    rw [if_pos (by rw [h4]; rfl), h4]
  refine ⟨?_, by rw [hrun], ⟨_, by rw [hrun]⟩⟩
  · unfold runMain
    rw [if_pos (by rw [h1, h2]; rfl)]

/-- C7 (witness): the theorem applied to a conflicting invocation (non-empty
input with `-list basic`) and a listing-only invocation (`-list all`). -/
theorem C7_witness :
    runMain none ⟨false, false, some ListChoice.basic, some "x", false, false⟩ "" =
      (1, [OutLine.logError usageErrorMsg]) ∧
    (runMain none ⟨false, false, some ListChoice.all, none, false, false⟩ "").1 = 0 ∧
    (∃ pre, (runMain none ⟨false, false, some ListChoice.all, none, false, false⟩ "").2 =
      pre ++ listingOutput false (some ListChoice.all)) :=
  C7_usage_conflict none "" ⟨false, false, some ListChoice.basic, some "x", false, false⟩
    ⟨false, false, some ListChoice.all, none, false, false⟩ (by decide) rfl rfl
    ListChoice.all rfl

/-- C8: the key sets of the Basic, Advanced and Inheritance tables are
pairwise disjoint — no rights code is a key of more than one table. -/
theorem C8_tables_disjoint :
    (∀ k ∈ tableKeys DACL_BASIC_RIGHTS, k ∉ tableKeys DACL_ADVANCED_RIGHTS) ∧
    (∀ k ∈ tableKeys DACL_BASIC_RIGHTS, k ∉ tableKeys DACL_INHERITANCE_RIGHTS) ∧
    (∀ k ∈ tableKeys DACL_ADVANCED_RIGHTS, k ∉ tableKeys DACL_INHERITANCE_RIGHTS) := by
  refine ⟨?_, ?_, ?_⟩ <;> decide

/-- C8 (witness): the disjointness theorem applied to the concrete keys `F`
and `RD`. -/
theorem C8_witness :
    "F" ∉ tableKeys DACL_ADVANCED_RIGHTS ∧
    "F" ∉ tableKeys DACL_INHERITANCE_RIGHTS ∧
    "RD" ∉ tableKeys DACL_INHERITANCE_RIGHTS :=
  ⟨C8_tables_disjoint.1 "F" (by decide),
   C8_tables_disjoint.2.1 "F" (by decide),
   C8_tables_disjoint.2.2 "RD" (by decide)⟩

/-- C9: a token containing a comma is never a key of the Inheritance table
(whose keys contain no comma), so the ACE loop takes the permission branch
for it, splitting it on commas and resolving each piece through the Basic
then Advanced lookup only; the bundled inheritance codes `OI` and `CI`
resolve to nothing there. -/
theorem C9_comma_token_never_inheritance (ace : String) (h : ',' ∈ ace.data)
    (d : Bool) (rest : List String) (fi fp : Bool) :
    lookupTable DACL_INHERITANCE_RIGHTS ace = none ∧
    basicOrAdvanced "OI" = none ∧ basicOrAdvanced "CI" = none ∧
    renderAces d (ace :: rest) fi fp =
      (if fp then [OutLine.permHeader] else []) ++
      (splitComma ace).map (fun key => OutLine.permEntry key (basicOrAdvanced key)) ++
      renderAces d rest fi false := by
  have hn := lookupInherit_comma_none ace h
  exact ⟨hn, by decide, by decide, by simp only [renderAces, hn]⟩

/-- C9 (witness): the theorem applied to the bundled token `OI,CI`. -/
theorem C9_witness :
    lookupTable DACL_INHERITANCE_RIGHTS "OI,CI" = none ∧
    basicOrAdvanced "OI" = none ∧ basicOrAdvanced "CI" = none ∧
    renderAces false ["OI,CI"] true true =
      (if true then [OutLine.permHeader] else []) ++
      (splitComma "OI,CI").map (fun key => OutLine.permEntry key (basicOrAdvanced key)) ++
      renderAces false [] true false :=
  C9_comma_token_never_inheritance "OI,CI" (by decide) false [] true true

/-- C10: the first-line flag is false for every line after the first, the
`target_file` threading never changes it on a non-first line, and no Target
record is ever produced by the non-first-line part of the loop — only the
physically first line can yield one. -/
theorem C10_target_file_only_first_line (d : Bool) (line : String) (rest : List String)
    (tf : Option String) (f : String) :
    processLines d (line :: rest) tf true =
      (processLine tf true d line).1 ++
      processLines d rest (processLine tf true d line).2 false ∧
    (processLine tf false d line).2 = tf ∧
    OutLine.targetLine f ∉ processLines d rest tf false := by
  refine ⟨rfl, ?_, processLines_no_targetLine d rest tf f⟩
  rw [processLine_snd]
  exact extractIdentity_not_first tf line
